import Mathlib

/-!
Verification of the ladder-score batch pipeline (`ladder_score/ladder.py`).

The script reads players, maps and per-map time-ordered records from a
database, computes per-map statistics (count, min, max, mean, median of
completion times in seconds), a per-record score
`(log10(1000*rn^2) + log10((avg-t)^2+1)) * log10(rn/r+1)^3`, accumulates the
scores per map and per player, sorts both aggregate tables by descending
score, and writes two CSV reports.

The embedding below models the numeric computations over `ℝ` (the script uses
double-precision floats), the records as structures carrying the tuple fields
the script reads, the two accumulator dictionaries as insertion-ordered
association lists (Python dicts preserve insertion order), and the database
as a function from a map id to its time-ordered record list.
-/

namespace LadderScore

/-- A row of the `records` table: the script reads `record[1]` (player id)
and `record[3]` (completion time in integer milliseconds). -/
structure Record where
  id : ℕ
  player_id : ℕ
  map_id : ℕ
  time_ms : ℤ
deriving DecidableEq

/-- A row of the `players` table: the script reads columns 0, 1, 2. -/
structure Player where
  id : ℕ
  login : String
  name : String

/-- A row of the `maps` table: the script reads columns 0 and 3. -/
structure MapInfo where
  id : ℕ
  name : String

/-- The `MapStat` dataclass. -/
structure MapStat where
  records_count : ℕ
  min_record : ℝ
  average_record : ℝ
  median_record : ℝ
  max_record : ℝ
  score : ℝ

/-- The `PlayerStat` dataclass. -/
structure PlayerStat where
  score : ℝ

/-- `record_time_sec(record) = record[3] / 1000.0`. -/
noncomputable def record_time_sec (record : Record) : ℝ :=
  (record.time_ms : ℝ) / 1000

/-- `compute_score(r, rn, t, average)` from the script:
`score = log10(1000*(rn*rn)) + log10((average-t)**2 + 1)` followed by
`score = score * log10((rn/r) + 1)**3`. -/
noncomputable def compute_score (r rn t average : ℝ) : ℝ :=
  (Real.logb 10 (1000 * (rn * rn)) + Real.logb 10 ((average - t) ^ 2 + 1)) *
    Real.logb 10 (rn / r + 1) ^ 3

/-- The multiplicative rank-decay factor `log10((rn/r) + 1)**3`, the second
factor of `compute_score`. -/
noncomputable def rank_decay (rn r : ℝ) : ℝ :=
  Real.logb 10 (rn / r + 1) ^ 3

/-- The statistics phase for one map: starting from `map_records[0]`, fold
min/max/sum over all records, divide the sum by the count, and take the
record at index `len(map_records) // 2` as the median.  `r0` is
`map_records[0]`; it is also used as the (never needed) out-of-range default
of the median lookup. -/
noncomputable def mapStat (r0 : Record) (map_records : List Record) : MapStat :=
  { records_count := map_records.length
    min_record :=
      map_records.foldl (fun m rec => min m (record_time_sec rec)) (record_time_sec r0)
    max_record :=
      map_records.foldl (fun m rec => max m (record_time_sec rec)) (record_time_sec r0)
    average_record :=
      (map_records.foldl (fun s rec => s + record_time_sec rec) 0) / map_records.length
    median_record := record_time_sec (map_records.getD (map_records.length / 2) r0)
    score := 0 }

/-- The score of the record at 0-based position `i` of a map's time-ordered
record list: `r = i + 1`, `t = max(record_time_sec(record), average)`. -/
noncomputable def record_score (rn : ℕ) (average : ℝ) (i : ℕ) (record : Record) : ℝ :=
  compute_score (↑(i + 1)) (↑rn) (max (record_time_sec record) average) average

/-- `player_stats` get-or-insert-then-add: if the player id is absent, a
zero-initialized `PlayerStat` is created first, then the score is added.
New keys go to the end, as in a Python dict. -/
noncomputable def addScore (pid : ℕ) (s : ℝ) :
    List (ℕ × PlayerStat) → List (ℕ × PlayerStat)
  | [] => [(pid, ⟨0 + s⟩)]
  | (q, v) :: rest =>
      if q = pid then (q, ⟨v.score + s⟩) :: rest
      else (q, v) :: addScore pid s rest

/-- The scoring loop `for i_record in range(len(map_records))`, threading the
map's running score total and the `player_stats` dictionary. -/
noncomputable def scoreLoop (rn : ℕ) (avg : ℝ) :
    ℕ → List Record → ℝ → List (ℕ × PlayerStat) → ℝ × List (ℕ × PlayerStat)
  | _, [], total, ps => (total, ps)
  | i, record :: rest, total, ps =>
      scoreLoop rn avg (i + 1) rest (total + record_score rn avg i record)
        (addScore record.player_id (record_score rn avg i record) ps)

/-- One iteration of the per-map loop: an empty record list is skipped
(`continue`); otherwise the statistics are computed, the scoring loop runs,
and the finalized `MapStat` is appended to `map_stats`. -/
noncomputable def processMap (acc : List (ℕ × MapStat) × List (ℕ × PlayerStat))
    (map_id : ℕ) (map_records : List Record) :
    List (ℕ × MapStat) × List (ℕ × PlayerStat) :=
  match map_records with
  | [] => acc
  | r0 :: rest =>
      let stats := mapStat r0 (r0 :: rest)
      let res := scoreLoop stats.records_count stats.average_record 0 (r0 :: rest)
        stats.score acc.2
      (acc.1 ++ [(map_id, { stats with score := res.1 })], res.2)

/-- The whole accumulation pass: fold `processMap` over the map ids in their
iteration order, starting from two empty dictionaries.  `recordsFor` models
the `SELECT * from records WHERE map_id = %s ORDER BY time` query. -/
noncomputable def runPipeline (recordsFor : ℕ → List Record) (mapIds : List ℕ) :
    List (ℕ × MapStat) × List (ℕ × PlayerStat) :=
  mapIds.foldl (fun acc map_id => processMap acc map_id (recordsFor map_id)) ([], [])

/-- `sorted_player_stats.sort(key=StatTupleKey, reverse=True)`: stable sort
by descending `score`. -/
noncomputable def sortedPlayerStats (ps : List (ℕ × PlayerStat)) :
    List (ℕ × PlayerStat) :=
  ps.mergeSort (fun a b => decide (b.2.score ≤ a.2.score))

/-- `sorted_map_stats.sort(key=StatTupleKey, reverse=True)`: stable sort by
descending `score`. -/
noncomputable def sortedMapStats (ms : List (ℕ × MapStat)) : List (ℕ × MapStat) :=
  ms.mergeSort (fun a b => decide (b.2.score ≤ a.2.score))

/-- A row of `python_players_ladder.csv`: `id,login,name,score`. -/
structure PlayerRow where
  id : ℕ
  login : String
  name : String
  score : ℝ

/-- A row of `python_maps_ladder.csv`:
`id,name,score,average_score,min_record,max_record,average_record,median_record,records_count`. -/
structure MapRow where
  id : ℕ
  name : String
  score : ℝ
  average_score : ℝ
  min_record : ℝ
  max_record : ℝ
  average_record : ℝ
  median_record : ℝ
  records_count : ℕ

/-- The player report body: one row per sorted `PlayerStat` entry, fields
looked up in the `players` dictionary. -/
noncomputable def playerReport (players : ℕ → Player) (sorted : List (ℕ × PlayerStat)) :
    List PlayerRow :=
  sorted.map fun e =>
    { id := (players e.1).id
      login := (players e.1).login
      name := (players e.1).name
      score := e.2.score }

/-- The map report body: one row per sorted `MapStat` entry, with
`average_score = score / records_count`. -/
noncomputable def mapReport (maps : ℕ → MapInfo) (sorted : List (ℕ × MapStat)) :
    List MapRow :=
  sorted.map fun e =>
    { id := (maps e.1).id
      name := (maps e.1).name
      score := e.2.score
      average_score := e.2.score / e.2.records_count
      min_record := e.2.min_record
      max_record := e.2.max_record
      average_record := e.2.average_record
      median_record := e.2.median_record
      records_count := e.2.records_count }

/-- End-to-end player report for a snapshot. -/
noncomputable def fullPlayerReport (players : ℕ → Player) (recordsFor : ℕ → List Record)
    (mapIds : List ℕ) : List PlayerRow :=
  playerReport players (sortedPlayerStats (runPipeline recordsFor mapIds).2)

/-- End-to-end map report for a snapshot. -/
noncomputable def fullMapReport (maps : ℕ → MapInfo) (recordsFor : ℕ → List Record)
    (mapIds : List ℕ) : List MapRow :=
  mapReport maps (sortedMapStats (runPipeline recordsFor mapIds).1)

/-- Sum of the `score` fields of a `map_stats` association list. -/
noncomputable def mapScoreSum (ms : List (ℕ × MapStat)) : ℝ :=
  (ms.map (fun e => e.2.score)).sum

/-- Sum of the `score` fields of a `player_stats` association list. -/
noncomputable def playerScoreSum (ps : List (ℕ × PlayerStat)) : ℝ :=
  (ps.map (fun e => e.2.score)).sum

lemma foldl_min_eq (l : List Record) (a : ℝ)
    (h : ∀ x ∈ l, a ≤ record_time_sec x) :
    l.foldl (fun m rec => min m (record_time_sec rec)) a = a := by
  induction l generalizing a with
  | nil => rfl
  | cons x xs ih =>
      rw [List.foldl_cons, min_eq_left (h x (by simp))]
      exact ih a fun y hy => h y (by simp [hy])

lemma foldl_max_eq_getLast (x : Record) (xs : List Record) (a : ℝ)
    (hs : (x :: xs).Pairwise (fun u v => record_time_sec u ≤ record_time_sec v))
    (ha : a ≤ record_time_sec ((x :: xs).getLast (List.cons_ne_nil x xs))) :
    (x :: xs).foldl (fun m rec => max m (record_time_sec rec)) a
      = record_time_sec ((x :: xs).getLast (List.cons_ne_nil x xs)) := by
  induction xs generalizing x a with
  | nil =>
      simp only [List.foldl_cons, List.foldl_nil, List.getLast_singleton] at ha ⊢
      exact max_eq_right ha
  | cons y ys ih =>
      have hgl : (x :: y :: ys).getLast (List.cons_ne_nil x (y :: ys))
          = (y :: ys).getLast (List.cons_ne_nil y ys) := List.getLast_cons _
      rcases List.pairwise_cons.mp hs with ⟨hxall, htail⟩
      have hx : record_time_sec x
          ≤ record_time_sec ((y :: ys).getLast (List.cons_ne_nil y ys)) :=
        hxall _ (List.getLast_mem _)
      rw [hgl] at ha ⊢
      rw [List.foldl_cons]
      exact ih y (max a (record_time_sec x)) htail (max_le ha hx)

lemma foldl_add_times (l : List Record) (a : ℝ) :
    l.foldl (fun s rec => s + record_time_sec rec) a
      = a + (l.map record_time_sec).sum := by
  induction l generalizing a with
  | nil => simp
  | cons x xs ih =>
      simp only [List.foldl_cons, List.map_cons, List.sum_cons, ih]
      ring

lemma sorted_head_le (x : Record) (xs : List Record)
    (hs : (x :: xs).Pairwise (fun u v => record_time_sec u ≤ record_time_sec v)) :
    ∀ y ∈ x :: xs, record_time_sec x ≤ record_time_sec y := by
  intro y hy
  rcases List.mem_cons.mp hy with rfl | hy
  · exact le_refl _
  · exact (List.pairwise_cons.mp hs).1 y hy

lemma getD_map_time (l : List Record) (i : ℕ) (d : Record) (h : i < l.length) :
    (l.map record_time_sec).getD i 0 = record_time_sec (l.getD i d) := by
  rw [List.getD_eq_getElem?_getD, List.getD_eq_getElem?_getD, List.getElem?_map,
    List.getElem?_eq_getElem h]
  simp

lemma getD_eq_get_real (l : List ℝ) (i : ℕ) (h : i < l.length) :
    l.getD i 0 = l.get ⟨i, h⟩ := by
  rw [List.getD_eq_getElem?_getD, List.getElem?_eq_getElem h]
  simp

lemma foldl_min_le (l : List Record) (a : ℝ) :
    l.foldl (fun m rec => min m (record_time_sec rec)) a ≤ a
    ∧ ∀ x ∈ l, l.foldl (fun m rec => min m (record_time_sec rec)) a
        ≤ record_time_sec x := by
  induction l generalizing a with
  | nil => exact ⟨le_refl a, by simp⟩
  | cons x xs ih =>
      rcases ih (min a (record_time_sec x)) with ⟨h1, h2⟩
      rw [List.foldl_cons]
      refine ⟨h1.trans (min_le_left _ _), ?_⟩
      intro y hy
      rcases List.mem_cons.mp hy with rfl | hy
      · exact h1.trans (min_le_right _ _)
      · exact h2 y hy

lemma foldl_max_ge (l : List Record) (a : ℝ) :
    a ≤ l.foldl (fun m rec => max m (record_time_sec rec)) a
    ∧ ∀ x ∈ l, record_time_sec x
        ≤ l.foldl (fun m rec => max m (record_time_sec rec)) a := by
  induction l generalizing a with
  | nil => exact ⟨le_refl a, by simp⟩
  | cons x xs ih =>
      rcases ih (max a (record_time_sec x)) with ⟨h1, h2⟩
      rw [List.foldl_cons]
      refine ⟨(le_max_left _ _).trans h1, ?_⟩
      intro y hy
      rcases List.mem_cons.mp hy with rfl | hy
      · exact (le_max_right _ _).trans h1
      · exact h2 y hy

/-- C2: for a non-empty map whose fetched record list is ascending by time,
`min_record` is the first time, `max_record` the last, `average_record` the
arithmetic mean, and `median_record` the time at 0-based index `n / 2`. -/
theorem mapStat_fields (r0 : Record) (rest : List Record)
    (hs : ((r0 :: rest).map record_time_sec).Sorted (· ≤ ·)) :
    (mapStat r0 (r0 :: rest)).min_record = record_time_sec r0
    ∧ (mapStat r0 (r0 :: rest)).max_record
        = record_time_sec ((r0 :: rest).getLast (List.cons_ne_nil r0 rest))
    ∧ (mapStat r0 (r0 :: rest)).average_record
        = ((r0 :: rest).map record_time_sec).sum / ((r0 :: rest).length : ℝ)
    ∧ (mapStat r0 (r0 :: rest)).median_record
        = ((r0 :: rest).map record_time_sec).getD ((r0 :: rest).length / 2) 0 := by
  have hp : (r0 :: rest).Pairwise (fun u v => record_time_sec u ≤ record_time_sec v) :=
    List.pairwise_map.mp hs
  refine ⟨?_, ?_, ?_, ?_⟩
  · exact foldl_min_eq _ _ (sorted_head_le r0 rest hp)
  · exact foldl_max_eq_getLast r0 rest _ hp
      (sorted_head_le r0 rest hp _ (List.getLast_mem _))
  · show _ / _ = _ / _
    rw [foldl_add_times, zero_add]
  · exact (getD_map_time (r0 :: rest) _ r0
      (Nat.div_lt_self (by simp) (by norm_num))).symm

theorem mapStat_fields_witness :
    (mapStat ⟨1, 1, 1, 10000⟩ [⟨1, 1, 1, 10000⟩, ⟨2, 2, 1, 20000⟩]).min_record
        = record_time_sec ⟨1, 1, 1, 10000⟩
    ∧ (mapStat ⟨1, 1, 1, 10000⟩ [⟨1, 1, 1, 10000⟩, ⟨2, 2, 1, 20000⟩]).max_record
        = record_time_sec (([⟨1, 1, 1, 10000⟩, ⟨2, 2, 1, 20000⟩] :
            List Record).getLast (List.cons_ne_nil _ _))
    ∧ (mapStat ⟨1, 1, 1, 10000⟩ [⟨1, 1, 1, 10000⟩, ⟨2, 2, 1, 20000⟩]).average_record
        = (([⟨1, 1, 1, 10000⟩, ⟨2, 2, 1, 20000⟩] : List Record).map
            record_time_sec).sum
          / ((([⟨1, 1, 1, 10000⟩, ⟨2, 2, 1, 20000⟩] : List Record)).length : ℝ)
    ∧ (mapStat ⟨1, 1, 1, 10000⟩ [⟨1, 1, 1, 10000⟩, ⟨2, 2, 1, 20000⟩]).median_record
        = (([⟨1, 1, 1, 10000⟩, ⟨2, 2, 1, 20000⟩] : List Record).map
            record_time_sec).getD
            ((([⟨1, 1, 1, 10000⟩, ⟨2, 2, 1, 20000⟩] : List Record)).length / 2) 0 :=
  mapStat_fields ⟨1, 1, 1, 10000⟩ [⟨2, 2, 1, 20000⟩]
    (by norm_num [List.sorted_cons, record_time_sec])

/-- C3 counterexample: on the two-record map with times 10s and 20s the
median is 20 — the element at index `n // 2 = 1`, the UPPER of the two
central values — and not the lower central value 10 that the claim
predicts. -/
theorem median_even_counterexample :
    (mapStat ⟨1, 1, 1, 10000⟩ [⟨1, 1, 1, 10000⟩, ⟨2, 2, 1, 20000⟩]).median_record = 20
    ∧ (mapStat ⟨1, 1, 1, 10000⟩
        [⟨1, 1, 1, 10000⟩, ⟨2, 2, 1, 20000⟩]).median_record ≠ 10 := by
  constructor <;> norm_num [mapStat, record_time_sec, List.getD]

/-- C3 (amended): for an even record count on a sorted non-empty map the
median is the element at 0-based index `n / 2` — the UPPER of the two
central values, with no interpolation — and the lower central value (index
`n / 2 - 1`) is at most the median. -/
theorem median_even_upper (r0 : Record) (rest : List Record)
    (hs : ((r0 :: rest).map record_time_sec).Sorted (· ≤ ·))
    (heven : (r0 :: rest).length % 2 = 0) :
    (mapStat r0 (r0 :: rest)).median_record
      = ((r0 :: rest).map record_time_sec).getD ((r0 :: rest).length / 2) 0
    ∧ ((r0 :: rest).map record_time_sec).getD ((r0 :: rest).length / 2 - 1) 0
        ≤ (mapStat r0 (r0 :: rest)).median_record := by
  have hmed : (mapStat r0 (r0 :: rest)).median_record
      = ((r0 :: rest).map record_time_sec).getD ((r0 :: rest).length / 2) 0 :=
    (getD_map_time (r0 :: rest) _ r0 (Nat.div_lt_self (by simp) (by norm_num))).symm
  refine ⟨hmed, ?_⟩
  have hn : 2 ≤ (r0 :: rest).length := by
    have hlen : (r0 :: rest).length = rest.length + 1 := by simp
    omega
  have hj : (r0 :: rest).length / 2 < ((r0 :: rest).map record_time_sec).length := by
    rw [List.length_map]
    exact Nat.div_lt_self (by simp) (by norm_num)
  have hi : (r0 :: rest).length / 2 - 1 < ((r0 :: rest).map record_time_sec).length := by
    rw [List.length_map]
    have := Nat.div_lt_self (show 0 < (r0 :: rest).length by simp)
      (show 1 < 2 by norm_num)
    omega
  rw [hmed, getD_eq_get_real _ _ hi, getD_eq_get_real _ _ hj]
  exact hs.rel_get_of_le (by simp only [Fin.mk_le_mk]; omega)

theorem median_even_upper_witness :
    (mapStat ⟨1, 1, 1, 10000⟩ [⟨1, 1, 1, 10000⟩, ⟨2, 2, 1, 20000⟩]).median_record
      = (([⟨1, 1, 1, 10000⟩, ⟨2, 2, 1, 20000⟩] : List Record).map
          record_time_sec).getD
          ((([⟨1, 1, 1, 10000⟩, ⟨2, 2, 1, 20000⟩] : List Record)).length / 2) 0
    ∧ (([⟨1, 1, 1, 10000⟩, ⟨2, 2, 1, 20000⟩] : List Record).map
          record_time_sec).getD
          ((([⟨1, 1, 1, 10000⟩, ⟨2, 2, 1, 20000⟩] : List Record)).length / 2 - 1) 0
        ≤ (mapStat ⟨1, 1, 1, 10000⟩
            [⟨1, 1, 1, 10000⟩, ⟨2, 2, 1, 20000⟩]).median_record :=
  median_even_upper ⟨1, 1, 1, 10000⟩ [⟨2, 2, 1, 20000⟩]
    (by norm_num [List.sorted_cons, record_time_sec]) (by decide)

/-- C10: for every non-empty map the arithmetic mean of the record times
lies between the minimum and the maximum record time. -/
theorem min_le_average_le_max (r0 : Record) (rest : List Record) :
    (mapStat r0 (r0 :: rest)).min_record ≤ (mapStat r0 (r0 :: rest)).average_record
    ∧ (mapStat r0 (r0 :: rest)).average_record
        ≤ (mapStat r0 (r0 :: rest)).max_record := by
  have hlen : (0 : ℝ) < ((r0 :: rest).length : ℝ) := by
    have : 0 < (r0 :: rest).length := by simp
    exact_mod_cast this
  have havg : (mapStat r0 (r0 :: rest)).average_record
      = ((r0 :: rest).map record_time_sec).sum / ((r0 :: rest).length : ℝ) := by
    show _ / _ = _ / _
    rw [foldl_add_times, zero_add]
  rcases foldl_min_le (r0 :: rest) (record_time_sec r0) with ⟨-, hminall⟩
  rcases foldl_max_ge (r0 :: rest) (record_time_sec r0) with ⟨-, hmaxall⟩
  constructor
  · rw [havg]
    rw [le_div_iff₀ hlen]
    have hall : ∀ x ∈ (r0 :: rest).map record_time_sec,
        (mapStat r0 (r0 :: rest)).min_record ≤ x := by
      intro x hx
      rcases List.mem_map.mp hx with ⟨y, hy, rfl⟩
      exact hminall y hy
    have hsum := List.card_nsmul_le_sum _ _ hall
    rw [List.length_map, nsmul_eq_mul] at hsum
    calc (mapStat r0 (r0 :: rest)).min_record * ((r0 :: rest).length : ℝ)
        = ((r0 :: rest).length : ℝ) * (mapStat r0 (r0 :: rest)).min_record := by ring
      _ ≤ _ := hsum
  · rw [havg]
    rw [div_le_iff₀ hlen]
    have hall : ∀ x ∈ (r0 :: rest).map record_time_sec,
        x ≤ (mapStat r0 (r0 :: rest)).max_record := by
      intro x hx
      rcases List.mem_map.mp hx with ⟨y, hy, rfl⟩
      exact hmaxall y hy
    have hsum := List.sum_le_card_nsmul _ _ hall
    rw [List.length_map, nsmul_eq_mul] at hsum
    calc ((r0 :: rest).map record_time_sec).sum
        ≤ ((r0 :: rest).length : ℝ) * (mapStat r0 (r0 :: rest)).max_record := hsum
      _ = (mapStat r0 (r0 :: rest)).max_record * ((r0 :: rest).length : ℝ) := by ring

/-- C1: the per-record score at 1-based rank `r` equals
`(log10(1000*rn^2) + log10((average_record - t)^2 + 1)) * log10(rn/r + 1)^3`
with `t = max(record_time_seconds, average_record)`, and the clamp of `t` to
the average makes the deviation term vanish for any faster-than-average
time (so it never changes the deviation term). -/
theorem per_record_score_formula (rn r : ℕ) (hr : 1 ≤ r) (avg : ℝ) (record : Record) :
    record_score rn avg (r - 1) record
      = (Real.logb 10 (1000 * (rn : ℝ) ^ 2)
          + Real.logb 10 ((avg - max (record_time_sec record) avg) ^ 2 + 1))
        * Real.logb 10 ((rn : ℝ) / (r : ℝ) + 1) ^ 3
    ∧ (record_time_sec record ≤ avg →
        Real.logb 10 ((avg - max (record_time_sec record) avg) ^ 2 + 1) = 0) := by
  constructor
  · unfold record_score compute_score
    rw [Nat.sub_add_cancel hr]
    ring_nf
  · intro h
    rw [max_eq_right h, sub_self]
    norm_num

theorem per_record_score_formula_witness :
    record_score 2 15 (1 - 1) ⟨1, 1, 1, 10000⟩
      = (Real.logb 10 (1000 * ((2 : ℕ) : ℝ) ^ 2)
          + Real.logb 10 ((15 - max (record_time_sec ⟨1, 1, 1, 10000⟩) 15) ^ 2 + 1))
        * Real.logb 10 (((2 : ℕ) : ℝ) / ((1 : ℕ) : ℝ) + 1) ^ 3
    ∧ (record_time_sec ⟨1, 1, 1, 10000⟩ ≤ 15 →
        Real.logb 10 ((15 - max (record_time_sec ⟨1, 1, 1, 10000⟩) 15) ^ 2 + 1) = 0) :=
  per_record_score_formula 2 1 (by decide) 15 ⟨1, 1, 1, 10000⟩

/-- C5: on a non-empty map (`rn ≥ 1`) every per-record score is
nonnegative: the base term, the deviation term and the cubed rank-decay
factor are all nonnegative. -/
theorem record_score_nonneg (rn i : ℕ) (hrn : 1 ≤ rn) (avg : ℝ) (record : Record) :
    0 ≤ record_score rn avg i record := by
  unfold record_score compute_score
  have h10 : (1 : ℝ) < 10 := by norm_num
  have hrn1 : (1 : ℝ) ≤ (rn : ℝ) := by exact_mod_cast hrn
  have hbase : (1 : ℝ) ≤ 1000 * ((rn : ℝ) * rn) := by nlinarith
  have hdev : (1 : ℝ) ≤ (avg - max (record_time_sec record) avg) ^ 2 + 1 := by
    nlinarith [sq_nonneg (avg - max (record_time_sec record) avg)]
  have hdecay : (1 : ℝ) ≤ (rn : ℝ) / (↑(i + 1)) + 1 := by
    have hq : (0 : ℝ) ≤ (rn : ℝ) / (↑(i + 1)) := by positivity
    linarith
  exact mul_nonneg
    (add_nonneg (Real.logb_nonneg h10 hbase) (Real.logb_nonneg h10 hdev))
    (pow_nonneg (Real.logb_nonneg h10 hdecay) 3)

theorem record_score_nonneg_witness :
    0 ≤ record_score 1 0 0 ⟨1, 1, 1, 10000⟩ :=
  record_score_nonneg 1 0 (by decide) 0 ⟨1, 1, 1, 10000⟩

/-- C6: `compute_score` factors through the rank-decay term
`log10(rn/r + 1)^3`, which is monotonically non-increasing in the rank `r`
over ranks `≥ 1` and hence maximal at rank `r = 1`. -/
theorem rank_decay_monotone (rn r rp : ℕ) (h1 : 1 ≤ r) (hrr : r ≤ rp) (t avg : ℝ) :
    compute_score (r : ℝ) (rn : ℝ) t avg
      = (Real.logb 10 (1000 * ((rn : ℝ) * rn)) + Real.logb 10 ((avg - t) ^ 2 + 1))
        * rank_decay rn r
    ∧ rank_decay (rn : ℝ) (rp : ℝ) ≤ rank_decay rn r
    ∧ rank_decay (rn : ℝ) (r : ℝ) ≤ rank_decay rn 1 := by
  have h10 : (1 : ℝ) < 10 := by norm_num
  have key : ∀ a b : ℕ, 1 ≤ a → a ≤ b →
      rank_decay (rn : ℝ) (b : ℝ) ≤ rank_decay (rn : ℝ) (a : ℝ) := by
    intro a b ha hab
    unfold rank_decay
    have ha0 : (0 : ℝ) < (a : ℝ) := by exact_mod_cast Nat.lt_of_lt_of_le Nat.zero_lt_one ha
    have hdiv : (rn : ℝ) / (b : ℝ) ≤ (rn : ℝ) / (a : ℝ) :=
      div_le_div_of_nonneg_left (by positivity) ha0 (by exact_mod_cast hab)
    have hb0 : (0 : ℝ) ≤ (rn : ℝ) / (b : ℝ) := by positivity
    refine pow_le_pow_left₀ (Real.logb_nonneg h10 (by linarith)) ?_ 3
    exact Real.logb_le_logb_of_le h10 (by linarith) (by linarith)
  refine ⟨by unfold compute_score rank_decay; ring, key r rp h1 hrr, ?_⟩
  simpa using key 1 r le_rfl h1

theorem rank_decay_monotone_witness :
    compute_score ((1 : ℕ) : ℝ) ((3 : ℕ) : ℝ) 5 4
      = (Real.logb 10 (1000 * (((3 : ℕ) : ℝ) * (3 : ℕ))) + Real.logb 10 ((4 - 5) ^ 2 + 1))
        * rank_decay ((3 : ℕ) : ℝ) ((1 : ℕ) : ℝ)
    ∧ rank_decay ((3 : ℕ) : ℝ) ((2 : ℕ) : ℝ) ≤ rank_decay ((3 : ℕ) : ℝ) ((1 : ℕ) : ℝ)
    ∧ rank_decay ((3 : ℕ) : ℝ) ((1 : ℕ) : ℝ) ≤ rank_decay ((3 : ℕ) : ℝ) 1 :=
  rank_decay_monotone 3 1 2 (by decide) (by decide) 5 4

lemma playerScoreSum_nil : playerScoreSum [] = 0 := rfl

lemma playerScoreSum_cons (e : ℕ × PlayerStat) (l : List (ℕ × PlayerStat)) :
    playerScoreSum (e :: l) = e.2.score + playerScoreSum l := by
  simp [playerScoreSum]

lemma playerScoreSum_addScore (pid : ℕ) (s : ℝ) (ps : List (ℕ × PlayerStat)) :
    playerScoreSum (addScore pid s ps) = playerScoreSum ps + s := by
  induction ps with
  | nil => simp [addScore, playerScoreSum]
  | cons e rest ih =>
      rcases e with ⟨q, v⟩
      by_cases h : q = pid
      · subst h
        have he : addScore q s ((q, v) :: rest) = (q, ⟨v.score + s⟩) :: rest := by
          simp [addScore]
        rw [he, playerScoreSum_cons, playerScoreSum_cons]
        ring
      · simp only [addScore, if_neg h, playerScoreSum_cons, ih]
        ring

lemma scoreLoop_sum (rn : ℕ) (avg : ℝ) (l : List Record) :
    ∀ (i : ℕ) (total : ℝ) (ps : List (ℕ × PlayerStat)),
    (scoreLoop rn avg i l total ps).1 + playerScoreSum ps
      = total + playerScoreSum (scoreLoop rn avg i l total ps).2 := by
  induction l with
  | nil => intro i total ps; simp [scoreLoop]
  | cons rec rest ih =>
      intro i total ps
      simp only [scoreLoop]
      have h := ih (i + 1) (total + record_score rn avg i rec)
        (addScore rec.player_id (record_score rn avg i rec) ps)
      rw [playerScoreSum_addScore] at h
      linarith

lemma processMap_sum (acc : List (ℕ × MapStat) × List (ℕ × PlayerStat))
    (map_id : ℕ) (map_records : List Record)
    (h : mapScoreSum acc.1 = playerScoreSum acc.2) :
    mapScoreSum (processMap acc map_id map_records).1
      = playerScoreSum (processMap acc map_id map_records).2 := by
  cases map_records with
  | nil => simpa [processMap] using h
  | cons r0 rest =>
      simp only [processMap]
      set stats := mapStat r0 (r0 :: rest) with hstats
      set res := scoreLoop stats.records_count stats.average_record 0 (r0 :: rest)
        stats.score acc.2 with hres
      have hs0 : stats.score = 0 := rfl
      have hsl := scoreLoop_sum stats.records_count stats.average_record (r0 :: rest)
        0 stats.score acc.2
      rw [← hres] at hsl
      have happ : mapScoreSum (acc.1 ++ [(map_id, { stats with score := res.1 })])
          = mapScoreSum acc.1 + res.1 := by
        simp [mapScoreSum]
      rw [happ]
      rw [hs0] at hsl
      linarith

/-- C4: after all maps are processed, the total of the per-map scores equals
the total of the per-player scores (both sum the same per-record scores). -/
theorem score_conservation (recordsFor : ℕ → List Record) (mapIds : List ℕ) :
    mapScoreSum (runPipeline recordsFor mapIds).1
      = playerScoreSum (runPipeline recordsFor mapIds).2 := by
  have key : ∀ (ids : List ℕ) (acc : List (ℕ × MapStat) × List (ℕ × PlayerStat)),
      mapScoreSum acc.1 = playerScoreSum acc.2 →
      mapScoreSum (ids.foldl (fun a mid => processMap a mid (recordsFor mid)) acc).1
        = playerScoreSum
            (ids.foldl (fun a mid => processMap a mid (recordsFor mid)) acc).2 := by
    intro ids
    induction ids with
    | nil => intro acc h; simpa using h
    | cons mid ms ih =>
        intro acc h
        rw [List.foldl_cons]
        exact ih _ (processMap_sum acc mid (recordsFor mid) h)
  simp only [runPipeline]
  exact key mapIds ([], []) (by simp [mapScoreSum, playerScoreSum])

lemma addScore_keys (pid q : ℕ) (s : ℝ) (ps : List (ℕ × PlayerStat))
    (h : q ∈ (addScore pid s ps).map Prod.fst) :
    q ∈ ps.map Prod.fst ∨ q = pid := by
  induction ps with
  | nil =>
      simp [addScore] at h
      exact Or.inr h
  | cons e rest ih =>
      rcases e with ⟨a, v⟩
      by_cases hq : a = pid
      · subst hq
        have he : addScore a s ((a, v) :: rest) = (a, ⟨v.score + s⟩) :: rest := by
          simp [addScore]
        rw [he] at h
        simp only [List.map_cons, List.mem_cons] at h
        simp only [List.map_cons, List.mem_cons]
        tauto
      · simp only [addScore, if_neg hq, List.map_cons, List.mem_cons] at h
        simp only [List.map_cons, List.mem_cons]
        rcases h with h | h
        · tauto
        · rcases ih h with h1 | h1 <;> tauto

lemma scoreLoop_keys (rn : ℕ) (avg : ℝ) (l : List Record) :
    ∀ (i : ℕ) (total : ℝ) (ps : List (ℕ × PlayerStat)) (q : ℕ),
    q ∈ (scoreLoop rn avg i l total ps).2.map Prod.fst →
    q ∈ ps.map Prod.fst ∨ ∃ rec ∈ l, rec.player_id = q := by
  induction l with
  | nil =>
      intro i total ps q h
      simp only [scoreLoop] at h
      exact Or.inl h
  | cons rec rest ih =>
      intro i total ps q h
      simp only [scoreLoop] at h
      rcases ih _ _ _ _ h with h1 | ⟨r, hr, he⟩
      · rcases addScore_keys _ _ _ _ h1 with h2 | rfl
        · exact Or.inl h2
        · exact Or.inr ⟨rec, by simp, rfl⟩
      · exact Or.inr ⟨r, by simp [hr], he⟩

lemma processMap_map_keys (acc : List (ℕ × MapStat) × List (ℕ × PlayerStat))
    (map_id : ℕ) (map_records : List Record) (q : ℕ)
    (h : q ∈ (processMap acc map_id map_records).1.map Prod.fst) :
    q ∈ acc.1.map Prod.fst ∨ (q = map_id ∧ map_records ≠ []) := by
  cases map_records with
  | nil =>
      simp only [processMap] at h
      exact Or.inl h
  | cons r0 rest =>
      simp only [processMap, List.map_append] at h
      rcases List.mem_append.mp h with h | h
      · exact Or.inl h
      · simp at h
        exact Or.inr ⟨h, by simp⟩

lemma processMap_player_keys (acc : List (ℕ × MapStat) × List (ℕ × PlayerStat))
    (map_id : ℕ) (map_records : List Record) (q : ℕ)
    (h : q ∈ (processMap acc map_id map_records).2.map Prod.fst) :
    q ∈ acc.2.map Prod.fst ∨ ∃ rec ∈ map_records, rec.player_id = q := by
  cases map_records with
  | nil =>
      simp only [processMap] at h
      exact Or.inl h
  | cons r0 rest =>
      simp only [processMap] at h
      exact scoreLoop_keys _ _ _ _ _ _ _ h

/-- C8: a map with an empty fetched record sequence is skipped entirely —
it gets no `MapStat` entry and no map-report row — and a player none of
whose records occur on any processed map gets no `PlayerStat` entry and no
player-report row. -/
theorem empty_map_and_recordless_player_skipped (recordsFor : ℕ → List Record)
    (mapIds : List ℕ) (m p : ℕ) (hm : recordsFor m = [])
    (hp : ∀ mid ∈ mapIds, ∀ rec ∈ recordsFor mid, rec.player_id ≠ p) :
    m ∉ (runPipeline recordsFor mapIds).1.map Prod.fst
    ∧ m ∉ (sortedMapStats (runPipeline recordsFor mapIds).1).map Prod.fst
    ∧ p ∉ (runPipeline recordsFor mapIds).2.map Prod.fst
    ∧ p ∉ (sortedPlayerStats (runPipeline recordsFor mapIds).2).map Prod.fst := by
  have key : ∀ (ids : List ℕ) (acc : List (ℕ × MapStat) × List (ℕ × PlayerStat)),
      (∀ mid ∈ ids, ∀ rec ∈ recordsFor mid, rec.player_id ≠ p) →
      m ∉ acc.1.map Prod.fst → p ∉ acc.2.map Prod.fst →
      m ∉ (ids.foldl (fun a mid => processMap a mid (recordsFor mid)) acc).1.map Prod.fst
      ∧ p ∉ (ids.foldl (fun a mid => processMap a mid (recordsFor mid)) acc).2.map
          Prod.fst := by
    intro ids
    induction ids with
    | nil => intro acc _ h1 h2; exact ⟨h1, h2⟩
    | cons mid ms ih =>
        intro acc hall h1 h2
        rw [List.foldl_cons]
        refine ih _ (fun x hx => hall x (by simp [hx])) ?_ ?_
        · intro hmem
          rcases processMap_map_keys acc mid (recordsFor mid) m hmem with h | ⟨rfl, hne⟩
          · exact h1 h
          · exact hne hm
        · intro hmem
          rcases processMap_player_keys acc mid (recordsFor mid) p hmem
            with h | ⟨r, hr, he⟩
          · exact h2 h
          · exact hall mid (by simp) r hr he
  obtain ⟨h1, h2⟩ := key mapIds ([], []) hp (by simp) (by simp)
  have hm1 : m ∉ (runPipeline recordsFor mapIds).1.map Prod.fst := by
    simpa only [runPipeline] using h1
  have hp1 : p ∉ (runPipeline recordsFor mapIds).2.map Prod.fst := by
    simpa only [runPipeline] using h2
  refine ⟨hm1, ?_, hp1, ?_⟩
  · intro hmem
    apply hm1
    rcases List.mem_map.mp hmem with ⟨e, he, rfl⟩
    simp only [sortedMapStats, List.mem_mergeSort] at he
    exact List.mem_map.mpr ⟨e, he, rfl⟩
  · intro hmem
    apply hp1
    rcases List.mem_map.mp hmem with ⟨e, he, rfl⟩
    simp only [sortedPlayerStats, List.mem_mergeSort] at he
    exact List.mem_map.mpr ⟨e, he, rfl⟩

theorem empty_map_and_recordless_player_skipped_witness :
    (1 : ℕ) ∉ (runPipeline
        (fun mid => if mid = 2 then [⟨5, 7, 2, 30000⟩] else []) [1, 2]).1.map Prod.fst
    ∧ (1 : ℕ) ∉ (sortedMapStats (runPipeline
        (fun mid => if mid = 2 then [⟨5, 7, 2, 30000⟩] else []) [1, 2]).1).map Prod.fst
    ∧ (9 : ℕ) ∉ (runPipeline
        (fun mid => if mid = 2 then [⟨5, 7, 2, 30000⟩] else []) [1, 2]).2.map Prod.fst
    ∧ (9 : ℕ) ∉ (sortedPlayerStats (runPipeline
        (fun mid => if mid = 2 then [⟨5, 7, 2, 30000⟩] else []) [1, 2]).2).map
        Prod.fst :=
  empty_map_and_recordless_player_skipped
    (fun mid => if mid = 2 then [⟨5, 7, 2, 30000⟩] else []) [1, 2] 1 9
    rfl (by decide)

/-- C7: both emitted report sequences are sorted by descending score: in
each report any earlier row's score is at least any later row's score. -/
theorem reports_sorted_desc (players : ℕ → Player) (maps : ℕ → MapInfo)
    (recordsFor : ℕ → List Record) (mapIds : List ℕ) :
    (fullPlayerReport players recordsFor mapIds).Sorted
      (fun a b => b.score ≤ a.score)
    ∧ (fullMapReport maps recordsFor mapIds).Sorted
      (fun a b => b.score ≤ a.score) := by
  constructor
  · have hP : (sortedPlayerStats (runPipeline recordsFor mapIds).2).Pairwise
        (fun a b => b.2.score ≤ a.2.score) := by
      have h := @List.sorted_mergeSort (ℕ × PlayerStat)
        (fun a b => decide (b.2.score ≤ a.2.score))
        (fun a b c hab hbc => decide_eq_true
          (le_trans (of_decide_eq_true hbc) (of_decide_eq_true hab)))
        (fun a b => by
          simp only [Bool.or_eq_true, decide_eq_true_eq]
          exact le_total b.2.score a.2.score)
        (runPipeline recordsFor mapIds).2
      exact h.imp of_decide_eq_true
    simp only [fullPlayerReport, playerReport]
    exact List.pairwise_map.mpr hP
  · have hM : (sortedMapStats (runPipeline recordsFor mapIds).1).Pairwise
        (fun a b => b.2.score ≤ a.2.score) := by
      have h := @List.sorted_mergeSort (ℕ × MapStat)
        (fun a b => decide (b.2.score ≤ a.2.score))
        (fun a b c hab hbc => decide_eq_true
          (le_trans (of_decide_eq_true hbc) (of_decide_eq_true hab)))
        (fun a b => by
          simp only [Bool.or_eq_true, decide_eq_true_eq]
          exact le_total b.2.score a.2.score)
        (runPipeline recordsFor mapIds).1
      exact h.imp of_decide_eq_true
    simp only [fullMapReport, mapReport]
    exact List.pairwise_map.mpr hM

/-- C9: the pipeline is deterministic — two runs over equal snapshots (same
players, maps, map-id iteration order and per-map ordered record lists)
produce identical player and map reports. -/
theorem pipeline_deterministic (pl1 pl2 : ℕ → Player) (mp1 mp2 : ℕ → MapInfo)
    (rf1 rf2 : ℕ → List Record) (ids1 ids2 : List ℕ)
    (hpl : ∀ i, pl1 i = pl2 i) (hmp : ∀ i, mp1 i = mp2 i)
    (hrf : ∀ i, rf1 i = rf2 i) (hids : ids1 = ids2) :
    fullPlayerReport pl1 rf1 ids1 = fullPlayerReport pl2 rf2 ids2
    ∧ fullMapReport mp1 rf1 ids1 = fullMapReport mp2 rf2 ids2 := by
  have h1 : pl1 = pl2 := funext hpl
  have h2 : mp1 = mp2 := funext hmp
  have h3 : rf1 = rf2 := funext hrf
  subst h1 h2 h3 hids
  exact ⟨rfl, rfl⟩

theorem pipeline_deterministic_witness :
    fullPlayerReport (fun j => ⟨j, "login", "name"⟩)
        (fun mid => if mid = 2 then [⟨5, 7, 2, 30000⟩] else []) [1, 2]
      = fullPlayerReport (fun j => ⟨j, "login", "name"⟩)
        (fun mid => if mid = 2 then [⟨5, 7, 2, 30000⟩] else []) [1, 2]
    ∧ fullMapReport (fun j => ⟨j, "mapname"⟩)
        (fun mid => if mid = 2 then [⟨5, 7, 2, 30000⟩] else []) [1, 2]
      = fullMapReport (fun j => ⟨j, "mapname"⟩)
        (fun mid => if mid = 2 then [⟨5, 7, 2, 30000⟩] else []) [1, 2] :=
  pipeline_deterministic _ _ _ _ _ _ _ _
    (fun _ => rfl) (fun _ => rfl) (fun _ => rfl) rfl

end LadderScore
